import Mathlib

/-!
# EnergySumsTPUnpacked.C : aggregation, normalisation and report order

A shallow embedding of `MCComparisonStudy/src/EnergySumsTPUnpacked.C`.

* Machine integers (`short`, `int`) are `Int`; no arithmetic of the program
  leaves the range of its type as long as a chain holds fewer than 2^31
  entries, which is assumed throughout.
* `float` / `double` values are exact rationals (`ℚ`).
* Calls into the ROOT library (histogram fills, scaling, canvas printing,
  console output) are recorded, in program order, as a list of `Op`.
* A path of the program with no defined result (integer division by zero,
  out-of-range `operator[]`, use of a reader value after a failed `Next()`)
  is `none`.
-/

namespace L1Studies

/-! ## Data -/

/-- The two datasets: `old` is the 2018 sample, `new` the 2022 sample. -/
inductive Era where
  | old
  | new
  deriving DecidableEq, Repr

/-- The eight calo-tower `TH1F` objects each era owns (lines 206-224). -/
inductive CaloHist where
  | CaloNTowersHist
  | CaloIHBHist
  | CaloIHEHist
  | CaloIHFHist
  | CaloNTowersHistZoom
  | CaloIHBHistZoom
  | CaloIHEHistZoom
  | CaloIHFHistZoom
  deriving DecidableEq, Repr

/-- Every `TH1F` of an era: the shared energy-sum histogram (lines 167-168)
and the eight calo-tower ones. -/
inductive Hist where
  | EnergySumHist
  | calo (h : CaloHist)
  deriving DecidableEq, Repr

/-- One entry of `l1CaloTowerTree/L1CaloTowerTree` as seen through the four
`TTreeReaderValue`s of lines 141-144. -/
structure CaloEvent where
  nHCALTP : Int
  hcalTPet : List ℚ
  hcalTPieta : List Int
  hcalTPiphi : List Int
  deriving DecidableEq, Repr

/-- A `.root` file: its path, the number of entries of its
`l1UpgradeTree/L1UpgradeTree` and the entries of its calo-tower tree. -/
structure RootFile where
  path : String
  upgradeEntries : Nat
  caloTower : List CaloEvent
  deriving DecidableEq, Repr

/-- The file system as seen by `GetFiles`: for a directory name, the `.root`
files the traversal pushes onto `files`, in traversal order. -/
abbrev World := String → List RootFile

/-- A call into ROOT or to `cout`, as issued by the program. -/
inductive Op where
  | cout (text : String)
  | progress (i : Int) (entries : Int)
  | canvasPrint (filename : String)
  | canvasClear
  | canvasSetLogy (value : Int)
  | chainDraw (e : Era) (i : Nat)
  | scale (e : Era) (h : Hist) (entries : Int)
  | fill (e : Era) (h : CaloHist) (x : ℚ)
  | profFill (e : Era) (ieta : Int) (iphi : Int) (et : ℚ)
  | setXTitle (e : Era) (h : Hist) (title : String)
  | drawHist (e : Era) (h : Hist) (option : String)
  | legendDraw
  | drawMean (label : String) (e : Era) (h : Hist)
  | drawProf (e : Era) (option : String)
  deriving DecidableEq, Repr

/-! ## Region conditions (lines 264-269 and 295-300) -/

/-- Line 264: `ieta <= 16 && ieta >= -16`. -/
def barrel2018 (ieta : Int) : Bool := decide (ieta ≤ 16) && decide (ieta ≥ -16)

/-- Line 266: `(ieta <= 29 && ieta >= 17) || (ieta >= -29 && ieta <= -17)`. -/
def endcap2018 (ieta : Int) : Bool :=
  (decide (ieta ≤ 29) && decide (ieta ≥ 17)) || (decide (ieta ≥ -29) && decide (ieta ≤ -17))

/-- Line 268: `ieta > 29 || ieta < -29`. -/
def forward2018 (ieta : Int) : Bool := decide (ieta > 29) || decide (ieta < -29)

/-- Line 295. -/
def barrel2022 (ieta : Int) : Bool := decide (ieta ≤ 16) && decide (ieta ≥ -16)

/-- Line 297. -/
def endcap2022 (ieta : Int) : Bool :=
  (decide (ieta ≤ 29) && decide (ieta ≥ 17)) || (decide (ieta ≥ -29) && decide (ieta ≤ -17))

/-- Line 299. -/
def forward2022 (ieta : Int) : Bool := decide (ieta > 29) || decide (ieta < -29)

/-- The Barrel condition of an era's tower loop. -/
def isBarrel : Era → Int → Bool
  | .old, ieta => barrel2018 ieta
  | .new, ieta => barrel2022 ieta

/-- The Endcap condition of an era's tower loop. -/
def isEndcap : Era → Int → Bool
  | .old, ieta => endcap2018 ieta
  | .new, ieta => endcap2022 ieta

/-- The Forward condition of an era's tower loop. -/
def isForward : Era → Int → Bool
  | .old, ieta => forward2018 ieta
  | .new, ieta => forward2022 ieta

/-- The per-event running sums `hb`, `he`, `hf` (lines 259-261). -/
structure Sums where
  hb : ℚ
  he : ℚ
  hf : ℚ
  deriving DecidableEq, Repr

/-- The three consecutive `if` statements of the tower loop (lines 264-269):
each one whose condition holds adds the tower energy to its sum. -/
def regionAdd (e : Era) (ieta : Int) (et : ℚ) (s : Sums) : Sums :=
  let s1 : Sums := if isBarrel e ieta then { s with hb := s.hb + et } else s
  let s2 : Sums := if isEndcap e ieta then { s1 with he := s1.he + et } else s1
  let s3 : Sums := if isForward e ieta then { s2 with hf := s2.hf + et } else s2
  s3

/-! ## The tower loop and the per-event body (lines 259-283, 290-313) -/

/-- One iteration `j` of the tower loop: the three vectors are indexed with
`operator[]` (no defined value past the end), the sums are updated and the
profile is filled with `(ieta, iphi, et)`. -/
def towerBody (e : Era) (ev : CaloEvent) (st : Sums × List Op) (j : Nat) :
    Option (Sums × List Op) :=
  match ev.hcalTPieta[j]?, ev.hcalTPiphi[j]?, ev.hcalTPet[j]? with
  | some ieta, some iphi, some et =>
      some (regionAdd e ieta et st.1, st.2 ++ [Op.profFill e ieta iphi et])
  | _, _, _ => none

/-- The loop `for (int j = 0; j < nHCALTP; ++j)`, started from
`hb = he = hf = 0`; returns the final sums and the profile fills made. -/
def towerLoop (e : Era) (ev : CaloEvent) : Option (Sums × List Op) :=
  (List.range ev.nHCALTP.toNat).foldlM (towerBody e ev) (⟨0, 0, 0⟩, [])

/-- The eight `Fill` calls that end the per-event body (lines 275-283). -/
def eventFills (e : Era) (n : Int) (s : Sums) : List Op :=
  [ Op.fill e .CaloNTowersHist (n : ℚ),
    Op.fill e .CaloIHBHist s.hb,
    Op.fill e .CaloIHEHist s.he,
    Op.fill e .CaloIHFHist s.hf,
    Op.fill e .CaloNTowersHistZoom (n : ℚ),
    Op.fill e .CaloIHBHistZoom s.hb,
    Op.fill e .CaloIHEHistZoom s.he,
    Op.fill e .CaloIHFHistZoom s.hf ]

/-- The body of the event loop after the progress line: tower loop, then
the eight fills. -/
def eventBody (e : Era) (ev : CaloEvent) : Option (List Op) :=
  (towerLoop e ev).map fun r => r.2 ++ eventFills e ev.nHCALTP r.1

/-! ## The event loop (lines 255-284, 286-314) -/

/-- State of the event loop: the entries the `TTreeReader` has not read yet
and the calls issued so far. -/
structure LoopState where
  reader : List CaloEvent
  trace : List Op
  deriving DecidableEq, Repr

/-- The progress line `if (i % (entries / 20) == 0) cout << ...`: C++ integer
division and remainder truncate; a zero divisor has no defined result. -/
def progressCheck (i : Int) (entries : Int) : Option (List Op) :=
  if entries.tdiv 20 = 0 then none
  else if i.tmod (entries.tdiv 20) = 0 then some [Op.progress i entries]
  else some []

/-- One iteration of the event loop: `Next()` moves the reader to its next
entry (the values have no defined content once the chain is exhausted), the
progress line is evaluated, then the body runs. -/
def loopIter (e : Era) (entries : Int) (st : LoopState) (i : Nat) : Option LoopState :=
  match st.reader with
  | [] => none
  | ev :: rest =>
    match progressCheck (i : Int) entries with
    | none => none
    | some p =>
      match eventBody e ev with
      | none => none
      | some t => some ⟨rest, st.trace ++ p ++ t⟩

/-- The loop `for (int i = 1; i < entries; ++i)` over a fresh reader of
`events`; returns the calls issued. -/
def caloLoop (e : Era) (entries : Int) (events : List CaloEvent) : Option (List Op) :=
  ((List.range' 1 (entries - 1).toNat).foldlM (loopIter e entries) ⟨events, []⟩).map
    fun st => st.trace

/-! ## Compare (lines 108-363) -/

/-- The map of bit number to energy-sum name (lines 110-130); the keys are
the non-negative values 0 to 18. -/
def EnergySum : List (Nat × String) :=
  [ (0, "etSumTotalEt"),
    (1, "etSumTotalEtHF"),
    (2, "etSumTotalEtEm"),
    (3, "etSumMinBiasHFP0"),
    (4, "htSumht"),
    (5, "htSumhtHF"),
    (6, "etSumMinBiasHFM0"),
    (7, "etSumMissingEt"),
    (8, "etSumMinBiasHFP1"),
    (9, "htSumMissingHt"),
    (10, "etSumMinBiasHFM1"),
    (11, "etSumMissingEtHF"),
    (12, "htSumMissingHtHF"),
    (13, "etSumTowCount"),
    (14, "etAsym"),
    (15, "etHFAsym"),
    (16, "htAsym"),
    (17, "htHFAsym"),
    (18, "centrality") ]

/-- The lookup `EnergySum[i]` of line 200 (`std::map::operator[]` yields the
empty string for an absent key). -/
def energySumName (i : Nat) : String := (EnergySum.lookup i).getD ""

/-- The value of `int entries = chain.GetEntries()` (lines 170-171) for the
energy-sum chain filled with `files`: the sum of the per-file entry counts.
Chains are taken to hold fewer than 2^31 entries, where the conversion from
`Long64_t` to `int` keeps the value. -/
def GetEntries (files : List RootFile) : Int :=
  (((files.map fun f => f.upgradeEntries).sum : Nat) : Int)

/-- The entries a `TTreeReader` over the calo-tower chain of `files`
delivers, in order. -/
def caloEntries (files : List RootFile) : List CaloEvent :=
  files.flatMap fun f => f.caloTower

/-- What `GetFiles` (lines 77-100) does besides collecting the files it
finds, which are given by the `World`: it prints one line per file
(line 94). -/
def GetFiles (files : List RootFile) : List Op :=
  files.map fun f => Op.cout f.path

/-- The function `PrintHist` (lines 45-68): title, the two curves, the legend,
the two mean labels, then one page printed to `filename`. -/
def PrintHist (e1 : Era) (hist1 : Hist) (e2 : Era) (hist2 : Hist) (title : String)
    (filename : String) : List Op :=
  [ Op.setXTitle e1 hist1 title,
    Op.drawHist e1 hist1 "HIST LP",
    Op.drawHist e2 hist2 "HIST LP SAME",
    Op.legendDraw,
    Op.drawMean "2018 Mean: " e2 hist2,
    Op.drawMean "2022 Mean: " e1 hist1,
    Op.canvasPrint filename ]

/-- The function `PrintHistProf2D` (lines 70-75). -/
def PrintHistProf2D (e1 : Era) (e2 : Era) (filename : String) : List Op :=
  [ Op.drawProf e1 "COLZ",
    Op.canvasPrint filename,
    Op.drawProf e2 "COLZ",
    Op.canvasPrint filename ]

/-- The body of the energy-sum loop for index `i` (lines 189-200). -/
def energySumIter (oldEntries : Int) (newEntries : Int) (i : Nat) : List Op :=
  [ Op.canvasClear,
    Op.chainDraw .old i,
    Op.chainDraw .new i,
    Op.scale .old .EnergySumHist oldEntries,
    Op.scale .new .EnergySumHist newEntries ] ++
  PrintHist .new .EnergySumHist .old .EnergySumHist (energySumName i) "L1EnergySumsUnpacked.pdf"

/-- The energy-sum document (lines 186-203). -/
def energySumPlots (oldEntries : Int) (newEntries : Int) : List Op :=
  [Op.canvasPrint "L1EnergySumsUnpacked.pdf["] ++
  (List.range EnergySum.length).flatMap (energySumIter oldEntries newEntries) ++
  [Op.canvasPrint "L1EnergySumsUnpacked.pdf]"]

/-- The sixteen `Scale(1.0/entries)` calls of lines 317-335. -/
def scaleStep (oldEntries : Int) (newEntries : Int) : List Op :=
  [ Op.scale .old (.calo .CaloNTowersHist) oldEntries,
    Op.scale .old (.calo .CaloIHBHist) oldEntries,
    Op.scale .old (.calo .CaloIHEHist) oldEntries,
    Op.scale .old (.calo .CaloIHFHist) oldEntries,
    Op.scale .old (.calo .CaloNTowersHistZoom) oldEntries,
    Op.scale .old (.calo .CaloIHBHistZoom) oldEntries,
    Op.scale .old (.calo .CaloIHEHistZoom) oldEntries,
    Op.scale .old (.calo .CaloIHFHistZoom) oldEntries,
    Op.scale .new (.calo .CaloNTowersHist) newEntries,
    Op.scale .new (.calo .CaloIHBHist) newEntries,
    Op.scale .new (.calo .CaloIHEHist) newEntries,
    Op.scale .new (.calo .CaloIHFHist) newEntries,
    Op.scale .new (.calo .CaloNTowersHistZoom) newEntries,
    Op.scale .new (.calo .CaloIHBHistZoom) newEntries,
    Op.scale .new (.calo .CaloIHEHistZoom) newEntries,
    Op.scale .new (.calo .CaloIHFHistZoom) newEntries ]

/-- One calo-tower page: `PrintHist(new<h>, old<h>, title, ...)`. -/
def caloPage (h : CaloHist) (title : String) : List Op :=
  PrintHist .new (.calo h) .old (.calo h) title "L1CaloTPUnpacked.pdf"

/-- The calo-tower document (lines 338-352). -/
def caloPlots : List Op :=
  [Op.canvasPrint "L1CaloTPUnpacked.pdf[", Op.canvasSetLogy 1, Op.canvasClear] ++
  caloPage .CaloNTowersHist "nTowers" ++
  caloPage .CaloIHBHist "HB Sum" ++
  caloPage .CaloIHEHist "HE Sum" ++
  caloPage .CaloIHFHist "HF Sum" ++
  caloPage .CaloNTowersHistZoom "nTowers" ++
  caloPage .CaloIHBHistZoom "HB Sum" ++
  caloPage .CaloIHEHistZoom "HE Sum" ++
  caloPage .CaloIHFHistZoom "HF Sum" ++
  [Op.canvasPrint "L1CaloTPUnpacked.pdf]"]

/-- The eta-phi document (lines 354-360). -/
def etaPhiPlots : List Op :=
  [Op.canvasPrint "L1CaloTPEtaPhiUnpacked.pdf[", Op.canvasSetLogy 0, Op.canvasClear] ++
  PrintHistProf2D .new .old "L1CaloTPEtaPhiUnpacked.pdf" ++
  [Op.canvasPrint "L1CaloTPEtaPhiUnpacked.pdf]"]

/-- The function `Compare`: its return value and the calls it issues, or
`none` when one of the event loops has no defined result. The construction
of chains, readers, histograms and canvas, and the calls that only set
drawing style (`FormatHistogram`, margins, legend entries) issue no call
recorded here. -/
def Compare (w : World) (oldInput : String) (newInput : String) :
    Option (Int × List Op) :=
  let oldFiles := w oldInput
  let newFiles := w newInput
  let oldEntries := GetEntries oldFiles
  let newEntries := GetEntries newFiles
  match caloLoop .old oldEntries (caloEntries oldFiles) with
  | none => none
  | some oldLoop =>
    match caloLoop .new newEntries (caloEntries newFiles) with
    | none => none
    | some newLoop =>
      some (0,
        GetFiles oldFiles ++ GetFiles newFiles ++
        energySumPlots oldEntries newEntries ++
        oldLoop ++ newLoop ++
        scaleStep oldEntries newEntries ++
        caloPlots ++ etaPhiPlots)

/-- The function `main` (lines 365-373); `argv` holds the `argc` argument
strings, the program name first. -/
def main (w : World) (argv : List String) : Option (Int × List Op) :=
  match argv with
  | [_, a1, a2] => Compare w a1 a2
  | _ => some (-1, [Op.cout "ERROR: Please pass two paths for 2018 MC and 2022 MC."])

/-! ## Bin contents of a `TH1F` -/

/-- Number of bins of a calo-tower histogram (`nbins*2` or `nbins`, with
`nbins = 40`). -/
def CaloHist.nbins : CaloHist → Nat
  | .CaloNTowersHist => 80
  | .CaloIHBHist => 80
  | .CaloIHEHist => 80
  | .CaloIHFHist => 80
  | .CaloNTowersHistZoom => 40
  | .CaloIHBHistZoom => 40
  | .CaloIHEHistZoom => 40
  | .CaloIHFHistZoom => 40

/-- Upper edge of a calo-tower histogram; every lower edge is 0. -/
def CaloHist.xup : CaloHist → ℚ
  | .CaloNTowersHist => 5500
  | .CaloIHBHist => 2500
  | .CaloIHEHist => 7000
  | .CaloIHFHist => 13000
  | .CaloNTowersHistZoom => 550
  | .CaloIHBHistZoom => 300
  | .CaloIHEHistZoom => 700
  | .CaloIHFHistZoom => 1300

/-- The bin `TH1::Fill(x)` increments: 0 is the underflow bin, `nbins + 1`
the overflow bin. -/
def findBin (h : CaloHist) (x : ℚ) : Nat :=
  if x < 0 then 0
  else if h.xup ≤ x then h.nbins + 1
  else 1 + (Rat.floor ((h.nbins : ℚ) * x / h.xup)).toNat

/-- Add `w` to cell `k` of a list of bin contents. -/
def addAt (w : ℚ) : Nat → List ℚ → List ℚ
  | _, [] => []
  | 0, c :: cs => (c + w) :: cs
  | k + 1, c :: cs => c :: addAt w k cs

/-- The bin contents of a freshly booked histogram: `nbins + 2` zeros. -/
def emptyBins (h : CaloHist) : List ℚ := List.replicate (h.nbins + 2) 0

/-- Effect of one call on the bin contents of histogram `h` of era `e`:
`Fill` adds 1 to a bin, `Scale(1.0/entries)` multiplies every bin by
`1/entries` (no rational value when `entries` is 0); other calls leave the
contents alone. -/
def applyOp (e : Era) (h : CaloHist) (bins : List ℚ) : Op → Option (List ℚ)
  | Op.fill e1 h1 x => if e1 = e ∧ h1 = h then some (addAt 1 (findBin h x) bins) else some bins
  | Op.scale e1 h1 n =>
      if e1 = e ∧ h1 = Hist.calo h then
        (if n = 0 then none else some (bins.map fun c => c * (1 / (n : ℚ))))
      else some bins
  | _ => some bins

/-- Bin contents of histogram `h` of era `e` after the calls `ops`, starting
from `bins`. -/
def runOps (e : Era) (h : CaloHist) : List Op → List ℚ → Option (List ℚ)
  | [], bins => some bins
  | op :: ops, bins =>
    match applyOp e h bins op with
    | none => none
    | some bins1 => runOps e h ops bins1

/-- Bin contents of histogram `h` of era `e` after the calls `ops`. -/
def binContents (e : Era) (h : CaloHist) (ops : List Op) : Option (List ℚ) :=
  runOps e h ops (emptyBins h)

/-! ## Views of a call sequence -/

/-- The value a call passes to `Fill` on histogram `h` of era `e`, if it is
such a call. -/
def fillValue (e : Era) (h : CaloHist) : Op → Option ℚ
  | Op.fill e1 h1 x => if e1 = e ∧ h1 = h then some x else none
  | _ => none

/-- The values passed to `Fill` on histogram `h` of era `e`, in order. -/
def fillsOf (e : Era) (h : CaloHist) (ops : List Op) : List ℚ :=
  ops.filterMap (fillValue e h)

/-- The denominator `entries` of a call `Scale(1.0/entries)` on a histogram
of era `e`, if it is such a call. -/
def scaleDenominator (e : Era) : Op → Option Int
  | Op.scale e1 _ n => if e1 = e then some n else none
  | _ => none

/-- The denominators of the `Scale(1.0/entries)` calls made on the
histograms of era `e`, in order. -/
def scalesOf (e : Era) (ops : List Op) : List Int :=
  ops.filterMap (scaleDenominator e)

/-- Whether a call writes to, or sets what is shown on, an output page. -/
def Op.isDocOp : Op → Bool
  | Op.canvasPrint _ => true
  | Op.setXTitle _ _ _ => true
  | Op.drawProf _ _ => true
  | _ => false

/-- The document-relevant calls of a sequence: every `canvas->Print`, every
page title set by `PrintHist` and every profile drawn. -/
def docOps (ops : List Op) : List Op := ops.filter Op.isDocOp

/-- The file name a call passes to `canvas->Print`, if it is such a call. -/
def printedFile : Op → Option String
  | Op.canvasPrint f => some f
  | _ => none

/-- The arguments of the `canvas->Print` calls of a sequence, in order: a
name ending in `[` opens a document, one ending in `]` closes it, the bare
name writes one page. -/
def printsOf (ops : List Op) : List String := ops.filterMap printedFile

/-- Calls the event loop of era `e` can issue: fills of that era's
histograms and profile, and progress lines. -/
def Op.isLoopOp (e : Era) : Op → Bool
  | Op.fill e1 _ _ => decide (e1 = e)
  | Op.profFill e1 _ _ _ => decide (e1 = e)
  | Op.progress _ _ => true
  | _ => false

/-- A fill of the eta-phi profile of era `e`. -/
def Op.isProfFill (e : Era) : Op → Bool
  | Op.profFill e1 _ _ _ => decide (e1 = e)
  | _ => false

/-- A `Fill` on histogram `h` of era `e`. -/
def Op.isFillOf (e : Era) (h : CaloHist) : Op → Bool
  | Op.fill e1 h1 _ => decide (e1 = e ∧ h1 = h)
  | _ => false

/-- A `Scale` on histogram `h` of era `e`. -/
def Op.isScaleOf (e : Era) (h : CaloHist) : Op → Bool
  | Op.scale e1 h1 _ => decide (e1 = e ∧ h1 = Hist.calo h)
  | _ => false

/-- An event whose three tower vectors hold at least `nHCALTP` elements, so
that the tower loop stays inside them. -/
def CaloEvent.wellFormed (ev : CaloEvent) : Prop :=
  ev.nHCALTP.toNat ≤ ev.hcalTPieta.length ∧
  ev.nHCALTP.toNat ≤ ev.hcalTPiphi.length ∧
  ev.nHCALTP.toNat ≤ ev.hcalTPet.length

/-- The entry count of the dataset of era `e` inside `Compare`. -/
def entriesOf (w : World) (oldInput : String) (newInput : String) : Era → Int
  | .old => GetEntries (w oldInput)
  | .new => GetEntries (w newInput)

/-- Position of the `Scale` call on histogram `h` of era `e` among the
sixteen calls of lines 317-335. -/
def scalePos : Era → CaloHist → Nat
  | .old, .CaloNTowersHist => 0
  | .old, .CaloIHBHist => 1
  | .old, .CaloIHEHist => 2
  | .old, .CaloIHFHist => 3
  | .old, .CaloNTowersHistZoom => 4
  | .old, .CaloIHBHistZoom => 5
  | .old, .CaloIHEHistZoom => 6
  | .old, .CaloIHFHistZoom => 7
  | .new, .CaloNTowersHist => 8
  | .new, .CaloIHBHist => 9
  | .new, .CaloIHEHist => 10
  | .new, .CaloIHFHist => 11
  | .new, .CaloNTowersHistZoom => 12
  | .new, .CaloIHBHistZoom => 13
  | .new, .CaloIHEHistZoom => 14
  | .new, .CaloIHFHistZoom => 15

/-! ## The documented report order -/

/-- The document calls as the specification lists them: the energy-sum
document with its 19 pages in bit-index order, the calo-tower document with
the four wide pages then the four zoomed ones, the eta-phi document with the
2022 profile then the 2018 profile; each document between its own opening
(`[`) and closing (`]`) call. -/
def specDocumentOrder : List Op :=
  [Op.canvasPrint "L1EnergySumsUnpacked.pdf["] ++
  (["etSumTotalEt", "etSumTotalEtHF", "etSumTotalEtEm", "etSumMinBiasHFP0", "htSumht",
    "htSumhtHF", "etSumMinBiasHFM0", "etSumMissingEt", "etSumMinBiasHFP1", "htSumMissingHt",
    "etSumMinBiasHFM1", "etSumMissingEtHF", "htSumMissingHtHF", "etSumTowCount", "etAsym",
    "etHFAsym", "htAsym", "htHFAsym", "centrality"].flatMap fun title =>
      [Op.setXTitle .new .EnergySumHist title, Op.canvasPrint "L1EnergySumsUnpacked.pdf"]) ++
  [Op.canvasPrint "L1EnergySumsUnpacked.pdf]"] ++
  [Op.canvasPrint "L1CaloTPUnpacked.pdf[",
   Op.setXTitle .new (.calo .CaloNTowersHist) "nTowers", Op.canvasPrint "L1CaloTPUnpacked.pdf",
   Op.setXTitle .new (.calo .CaloIHBHist) "HB Sum", Op.canvasPrint "L1CaloTPUnpacked.pdf",
   Op.setXTitle .new (.calo .CaloIHEHist) "HE Sum", Op.canvasPrint "L1CaloTPUnpacked.pdf",
   Op.setXTitle .new (.calo .CaloIHFHist) "HF Sum", Op.canvasPrint "L1CaloTPUnpacked.pdf",
   Op.setXTitle .new (.calo .CaloNTowersHistZoom) "nTowers", Op.canvasPrint "L1CaloTPUnpacked.pdf",
   Op.setXTitle .new (.calo .CaloIHBHistZoom) "HB Sum", Op.canvasPrint "L1CaloTPUnpacked.pdf",
   Op.setXTitle .new (.calo .CaloIHEHistZoom) "HE Sum", Op.canvasPrint "L1CaloTPUnpacked.pdf",
   Op.setXTitle .new (.calo .CaloIHFHistZoom) "HF Sum", Op.canvasPrint "L1CaloTPUnpacked.pdf",
   Op.canvasPrint "L1CaloTPUnpacked.pdf]"] ++
  [Op.canvasPrint "L1CaloTPEtaPhiUnpacked.pdf[",
   Op.drawProf .new "COLZ", Op.canvasPrint "L1CaloTPEtaPhiUnpacked.pdf",
   Op.drawProf .old "COLZ", Op.canvasPrint "L1CaloTPEtaPhiUnpacked.pdf",
   Op.canvasPrint "L1CaloTPEtaPhiUnpacked.pdf]"]

/-! ## Sample inputs -/

/-- An event without towers. -/
def emptyEvent : CaloEvent := ⟨0, [], [], []⟩

/-- The three one-tower events of the documented scenario: (eta 10,
energy 5), (eta -20, energy 3), (eta 35, energy 7). -/
def specEvents : List CaloEvent :=
  [⟨1, [5], [10], [1]⟩, ⟨1, [3], [-20], [1]⟩, ⟨1, [7], [35], [1]⟩]

/-- Twenty events: seventeen without towers, then the three of
`specEvents`. -/
def paddedEvents : List CaloEvent := List.replicate 17 emptyEvent ++ specEvents

/-- One Forward tower of energy 200. -/
def hfEvent : CaloEvent := ⟨1, [200], [35], [1]⟩

/-- Twenty events, the one with a tower first. -/
def hfFirst : List CaloEvent := hfEvent :: List.replicate 19 emptyEvent

/-- The same twenty events, the one with a tower last. -/
def hfLast : List CaloEvent := List.replicate 19 emptyEvent ++ [hfEvent]

/-- Directories without any data file. -/
def emptyWorld : World := fun _ => []

/-- Directories holding one file with the three events of `specEvents`. -/
def smallWorld : World := fun _ => [⟨"a.root", 3, specEvents⟩]

/-- Directories holding one file with the twenty events of `paddedEvents`. -/
def paddedWorld : World := fun _ => [⟨"a.root", 20, paddedEvents⟩]

/-- The result of `Compare` on `paddedWorld`. -/
def paddedRun : Int × List Op := (Compare paddedWorld "old" "new").getD (0, [])

/-! # Theorems -/

/-! ## Region conditions -/

theorem isBarrel_iff (e : Era) (ieta : Int) :
    isBarrel e ieta = true ↔ -16 ≤ ieta ∧ ieta ≤ 16 := by
  cases e <;> simp [isBarrel, barrel2018, barrel2022] <;> omega

theorem isEndcap_iff (e : Era) (ieta : Int) :
    isEndcap e ieta = true ↔ (17 ≤ ieta ∧ ieta ≤ 29) ∨ (-29 ≤ ieta ∧ ieta ≤ -17) := by
  cases e <;> simp [isEndcap, endcap2018, endcap2022] <;> omega

theorem isForward_iff (e : Era) (ieta : Int) :
    isForward e ieta = true ↔ 29 < ieta ∨ ieta < -29 := by
  cases e <;> simp [isForward, forward2018, forward2022]

/-- C1: for every integer eta-index and for the tower loop of either era,
exactly one of the Barrel, Endcap and Forward conditions holds, and the
three `if` statements add the tower energy to exactly the matching one of
`hb`, `he`, `hf`, leaving the two others unchanged. -/
theorem region_conditions_partition (e : Era) (ieta : Int) (et : ℚ) (s : Sums) :
    (isBarrel e ieta = true ∧ isEndcap e ieta = false ∧ isForward e ieta = false ∧
      regionAdd e ieta et s = ⟨s.hb + et, s.he, s.hf⟩) ∨
    (isBarrel e ieta = false ∧ isEndcap e ieta = true ∧ isForward e ieta = false ∧
      regionAdd e ieta et s = ⟨s.hb, s.he + et, s.hf⟩) ∨
    (isBarrel e ieta = false ∧ isEndcap e ieta = false ∧ isForward e ieta = true ∧
      regionAdd e ieta et s = ⟨s.hb, s.he, s.hf + et⟩) := by
  have hB := isBarrel_iff e ieta
  have hE := isEndcap_iff e ieta
  have hF := isForward_iff e ieta
  by_cases h1 : -16 ≤ ieta ∧ ieta ≤ 16
  · have b : isBarrel e ieta = true := hB.2 h1
    have c : isEndcap e ieta = false := by
      rw [Bool.eq_false_iff]; intro h; have := hE.1 h; omega
    have d : isForward e ieta = false := by
      rw [Bool.eq_false_iff]; intro h; have := hF.1 h; omega
    left
    simp [regionAdd, b, c, d]
  · have b : isBarrel e ieta = false := by
      rw [Bool.eq_false_iff]; intro h; exact h1 (hB.1 h)
    right
    by_cases h2 : -29 ≤ ieta ∧ ieta ≤ 29
    · have c : isEndcap e ieta = true := hE.2 (by omega)
      have d : isForward e ieta = false := by
        rw [Bool.eq_false_iff]; intro h; have := hF.1 h; omega
      left
      simp [regionAdd, b, c, d]
    · have c : isEndcap e ieta = false := by
        rw [Bool.eq_false_iff]; intro h; have := hE.1 h; omega
      have d : isForward e ieta = true := hF.2 (by omega)
      right
      simp [regionAdd, b, c, d]

/-- In the Barrel range the three `if` statements add the energy to `hb`
only. -/
theorem regionAdd_barrel (e : Era) (ieta : Int) (et : ℚ) (s : Sums)
    (h : -16 ≤ ieta ∧ ieta ≤ 16) :
    regionAdd e ieta et s = ⟨s.hb + et, s.he, s.hf⟩ := by
  have b : isBarrel e ieta = true := (isBarrel_iff e ieta).2 h
  have c : isEndcap e ieta = false := by
    rw [Bool.eq_false_iff]; intro hc; have := (isEndcap_iff e ieta).1 hc; omega
  have d : isForward e ieta = false := by
    rw [Bool.eq_false_iff]; intro hd; have := (isForward_iff e ieta).1 hd; omega
  simp [regionAdd, b, c, d]

/-- In the Endcap range the three `if` statements add the energy to `he`
only. -/
theorem regionAdd_endcap (e : Era) (ieta : Int) (et : ℚ) (s : Sums)
    (h : (17 ≤ ieta ∧ ieta ≤ 29) ∨ (-29 ≤ ieta ∧ ieta ≤ -17)) :
    regionAdd e ieta et s = ⟨s.hb, s.he + et, s.hf⟩ := by
  have b : isBarrel e ieta = false := by
    rw [Bool.eq_false_iff]; intro hb; have := (isBarrel_iff e ieta).1 hb; omega
  have c : isEndcap e ieta = true := (isEndcap_iff e ieta).2 h
  have d : isForward e ieta = false := by
    rw [Bool.eq_false_iff]; intro hd; have := (isForward_iff e ieta).1 hd; omega
  simp [regionAdd, b, c, d]

/-- In the Forward range the three `if` statements add the energy to `hf`
only. -/
theorem regionAdd_forward (e : Era) (ieta : Int) (et : ℚ) (s : Sums)
    (h : 29 < ieta ∨ ieta < -29) :
    regionAdd e ieta et s = ⟨s.hb, s.he, s.hf + et⟩ := by
  have b : isBarrel e ieta = false := by
    rw [Bool.eq_false_iff]; intro hb; have := (isBarrel_iff e ieta).1 hb; omega
  have c : isEndcap e ieta = false := by
    rw [Bool.eq_false_iff]; intro hc; have := (isEndcap_iff e ieta).1 hc; omega
  have d : isForward e ieta = true := (isForward_iff e ieta).2 h
  simp [regionAdd, b, c, d]

/-- The sum the tower loop adds the energy to, by the documented
boundaries on `|ieta|`. -/
theorem regionAdd_by_abs (e : Era) (ieta : Int) (et : ℚ) (s : Sums) :
    (|ieta| ≤ 16 ∧ regionAdd e ieta et s = ⟨s.hb + et, s.he, s.hf⟩) ∨
    (17 ≤ |ieta| ∧ |ieta| ≤ 29 ∧ regionAdd e ieta et s = ⟨s.hb, s.he + et, s.hf⟩) ∨
    (29 < |ieta| ∧ regionAdd e ieta et s = ⟨s.hb, s.he, s.hf + et⟩) := by
  by_cases h1 : -16 ≤ ieta ∧ ieta ≤ 16
  · exact Or.inl ⟨abs_le.2 h1, regionAdd_barrel e ieta et s h1⟩
  · by_cases h2 : -29 ≤ ieta ∧ ieta ≤ 29
    · refine Or.inr (Or.inl ⟨?_, abs_le.2 h2, regionAdd_endcap e ieta et s (by omega)⟩)
      rw [le_abs]; omega
    · refine Or.inr (Or.inr ⟨?_, regionAdd_forward e ieta et s (by omega)⟩)
      rw [lt_abs]; omega

/-- C2: the tower loop follows the documented boundaries. Its conditions
are: Barrel iff `|ieta| ≤ 16`, Endcap iff `17 ≤ |ieta| ≤ 29`, Forward iff
`|ieta| > 29`. Its three `if` statements add the tower energy to `hb` when
`|ieta| ≤ 16`, to `he` when `17 ≤ |ieta| ≤ 29` and to `hf` when
`|ieta| > 29`, and to no other sum; for a non-zero energy, `hb` (resp. `he`,
`hf`) grows by the energy iff the matching boundary holds. 16 is Barrel, 17
and 29 are Endcap, 30 is Forward, -29 is Endcap, -30 is Forward, for the
conditions and for the sums. The 2018 and the 2022 loop classify alike. -/
theorem region_boundaries (e : Era) (ieta : Int) :
    (isBarrel e ieta = true ↔ |ieta| ≤ 16) ∧
    (isEndcap e ieta = true ↔ 17 ≤ |ieta| ∧ |ieta| ≤ 29) ∧
    (isForward e ieta = true ↔ 29 < |ieta|) ∧
    (isBarrel e 16 = true ∧ isEndcap e 17 = true ∧ isEndcap e 29 = true ∧
      isForward e 30 = true ∧ isEndcap e (-29) = true ∧ isForward e (-30) = true) ∧
    (isBarrel Era.old ieta = isBarrel Era.new ieta ∧
      isEndcap Era.old ieta = isEndcap Era.new ieta ∧
      isForward Era.old ieta = isForward Era.new ieta) ∧
    (∀ (et : ℚ) (s : Sums), regionAdd Era.old ieta et s = regionAdd Era.new ieta et s) ∧
    (∀ (et : ℚ) (s : Sums),
      (|ieta| ≤ 16 ∧ regionAdd e ieta et s = ⟨s.hb + et, s.he, s.hf⟩) ∨
      (17 ≤ |ieta| ∧ |ieta| ≤ 29 ∧ regionAdd e ieta et s = ⟨s.hb, s.he + et, s.hf⟩) ∨
      (29 < |ieta| ∧ regionAdd e ieta et s = ⟨s.hb, s.he, s.hf + et⟩)) ∧
    (∀ (et : ℚ) (s : Sums), et ≠ 0 →
      ((regionAdd e ieta et s).hb = s.hb + et ↔ |ieta| ≤ 16) ∧
      ((regionAdd e ieta et s).he = s.he + et ↔ 17 ≤ |ieta| ∧ |ieta| ≤ 29) ∧
      ((regionAdd e ieta et s).hf = s.hf + et ↔ 29 < |ieta|)) ∧
    (∀ (et : ℚ) (s : Sums),
      regionAdd e 16 et s = ⟨s.hb + et, s.he, s.hf⟩ ∧
      regionAdd e 17 et s = ⟨s.hb, s.he + et, s.hf⟩ ∧
      regionAdd e 29 et s = ⟨s.hb, s.he + et, s.hf⟩ ∧
      regionAdd e 30 et s = ⟨s.hb, s.he, s.hf + et⟩ ∧
      regionAdd e (-29) et s = ⟨s.hb, s.he + et, s.hf⟩ ∧
      regionAdd e (-30) et s = ⟨s.hb, s.he, s.hf + et⟩) := by
  refine ⟨?_, ?_, ?_, ?_, ?_, ?_, ?_, ?_, ?_⟩
  · rw [isBarrel_iff, abs_le]
  · rw [isEndcap_iff, le_abs, abs_le]; omega
  · rw [isForward_iff, lt_abs]; omega
  · cases e <;> decide
  · exact ⟨rfl, rfl, rfl⟩
  · intro et s; rfl
  · intro et s; exact regionAdd_by_abs e ieta et s
  · intro et s het
    have hne : ∀ x : ℚ, x ≠ x + et := fun x hx => het (by linarith)
    rcases regionAdd_by_abs e ieta et s with ⟨ha, hr⟩ | ⟨ha1, ha2, hr⟩ | ⟨ha, hr⟩
    · rw [hr]
      refine ⟨⟨fun _ => ha, fun _ => rfl⟩, ⟨fun h => absurd h (hne s.he), fun h => ?_⟩,
        ⟨fun h => absurd h (hne s.hf), fun h => ?_⟩⟩
      · exact absurd (le_trans h.1 ha) (by decide)
      · exact absurd (lt_of_lt_of_le h ha) (by decide)
    · rw [hr]
      refine ⟨⟨fun h => absurd h (hne s.hb), fun h => ?_⟩, ⟨fun _ => ⟨ha1, ha2⟩, fun _ => rfl⟩,
        ⟨fun h => absurd h (hne s.hf), fun h => ?_⟩⟩
      · exact absurd (le_trans ha1 h) (by decide)
      · exact absurd (lt_of_lt_of_le h ha2) (by decide)
    · rw [hr]
      refine ⟨⟨fun h => absurd h (hne s.hb), fun h => ?_⟩,
        ⟨fun h => absurd h (hne s.he), fun h => ?_⟩, ⟨fun _ => ha, fun _ => rfl⟩⟩
      · exact absurd (lt_of_lt_of_le ha h) (by decide)
      · exact absurd (lt_of_lt_of_le ha h.2) (by decide)
  · intro et s
    exact ⟨regionAdd_barrel e 16 et s (by decide), regionAdd_endcap e 17 et s (by decide),
      regionAdd_endcap e 29 et s (by decide), regionAdd_forward e 30 et s (by decide),
      regionAdd_endcap e (-29) et s (by decide), regionAdd_forward e (-30) et s (by decide)⟩

/-! ## An event without towers -/

/-- C6: an event with tower count 0 leaves `hb = he = hf = 0`, makes no
profile fill, and makes exactly one fill of value 0 in each of the eight
histograms (tower count and three sums, wide and zoomed). -/
theorem zero_tower_event (e : Era) (ev : CaloEvent) (h : ev.nHCALTP = 0) :
    towerLoop e ev = some (⟨0, 0, 0⟩, []) ∧
    eventBody e ev =
      some [ Op.fill e .CaloNTowersHist 0, Op.fill e .CaloIHBHist 0,
             Op.fill e .CaloIHEHist 0, Op.fill e .CaloIHFHist 0,
             Op.fill e .CaloNTowersHistZoom 0, Op.fill e .CaloIHBHistZoom 0,
             Op.fill e .CaloIHEHistZoom 0, Op.fill e .CaloIHFHistZoom 0 ] := by
  have h1 : towerLoop e ev = some (⟨0, 0, 0⟩, []) := by
    simp [towerLoop, h]
  refine ⟨h1, ?_⟩
  simp [eventBody, h1, eventFills, h]

/-- The event without towers, in the 2018 loop. -/
theorem zero_tower_event_witness :
    emptyEvent.nHCALTP = 0 ∧
    (towerLoop Era.old emptyEvent = some (⟨0, 0, 0⟩, []) ∧
    eventBody Era.old emptyEvent =
      some [ Op.fill Era.old .CaloNTowersHist 0, Op.fill Era.old .CaloIHBHist 0,
             Op.fill Era.old .CaloIHEHist 0, Op.fill Era.old .CaloIHFHist 0,
             Op.fill Era.old .CaloNTowersHistZoom 0, Op.fill Era.old .CaloIHBHistZoom 0,
             Op.fill Era.old .CaloIHEHistZoom 0, Op.fill Era.old .CaloIHFHistZoom 0 ]) :=
  ⟨rfl, zero_tower_event Era.old emptyEvent rfl⟩

/-! ## Generic facts on `foldlM` in `Option` -/

theorem foldlM_some_inv {α β : Type} (f : β → α → Option β) (P : β → Prop)
    (hstep : ∀ b a b', P b → f b a = some b' → P b') :
    ∀ (l : List α) (b b' : β), P b → List.foldlM f b l = some b' → P b' := by
  intro l
  induction l with
  | nil =>
    intro b b' hb h
    simp at h
    exact h ▸ hb
  | cons a l ih =>
    intro b b' hb h
    rw [List.foldlM_cons] at h
    cases hf : f b a with
    | none => simp [hf] at h
    | some b1 =>
      simp [hf] at h
      exact ih b1 b' (hstep b a b1 hb hf) h

theorem foldlM_some_of_step {α β : Type} (f : β → α → Option β) :
    ∀ (l : List α), (∀ a ∈ l, ∀ b, ∃ b', f b a = some b') →
      ∀ b, ∃ b', List.foldlM f b l = some b' := by
  intro l
  induction l with
  | nil => intro _ b; exact ⟨b, rfl⟩
  | cons a l ih =>
    intro h b
    obtain ⟨b1, hb1⟩ := h a (List.mem_cons_self a l) b
    obtain ⟨b2, hb2⟩ := ih (fun a' ha' => h a' (List.mem_cons_of_mem a ha')) b1
    exact ⟨b2, by rw [List.foldlM_cons, hb1]; exact hb2⟩

/-! ## The tower loop -/

theorem towerBody_some (e : Era) (ev : CaloEvent) (st st' : Sums × List Op) (j : Nat)
    (h : towerBody e ev st j = some st') :
    ∃ ieta iphi et, st' = (regionAdd e ieta et st.1, st.2 ++ [Op.profFill e ieta iphi et]) := by
  unfold towerBody at h
  split at h
  · rename_i ieta iphi et _ _ _
    exact ⟨ieta, iphi, et, by simpa using h.symm⟩
  · simp at h

theorem towerLoop_ops (e : Era) (ev : CaloEvent) (r : Sums × List Op)
    (h : towerLoop e ev = some r) : ∀ op ∈ r.2, op.isProfFill e = true := by
  unfold towerLoop at h
  refine foldlM_some_inv (towerBody e ev) (fun st => ∀ op ∈ st.2, op.isProfFill e = true)
    ?_ _ _ _ (by simp) h
  intro b a b' hb hstep
  obtain ⟨ieta, iphi, et, rfl⟩ := towerBody_some e ev b b' a hstep
  intro op hop
  simp only [List.mem_append, List.mem_singleton] at hop
  rcases hop with hop | rfl
  · exact hb op hop
  · simp [Op.isProfFill]

theorem towerLoop_isSome (e : Era) (ev : CaloEvent) (hwf : ev.wellFormed) :
    ∃ r, towerLoop e ev = some r := by
  unfold towerLoop
  apply foldlM_some_of_step
  intro j hj b
  rw [List.mem_range] at hj
  obtain ⟨h1, h2, h3⟩ := hwf
  have g1 : j < ev.hcalTPieta.length := by omega
  have g2 : j < ev.hcalTPiphi.length := by omega
  have g3 : j < ev.hcalTPet.length := by omega
  simp [towerBody, List.getElem?_eq_getElem, g1, g2, g3]

/-! ## Structure of `Compare` and `main` -/

/-- A completed run of `Compare` is made of two completed event loops, and
its calls are those of lines 134-360 in order. -/
theorem Compare_some (w : World) (o n : String) (r : Int × List Op)
    (h : Compare w o n = some r) :
    ∃ oldLoop newLoop,
      caloLoop Era.old (GetEntries (w o)) (caloEntries (w o)) = some oldLoop ∧
      caloLoop Era.new (GetEntries (w n)) (caloEntries (w n)) = some newLoop ∧
      r = (0,
        GetFiles (w o) ++ GetFiles (w n) ++
        energySumPlots (GetEntries (w o)) (GetEntries (w n)) ++
        oldLoop ++ newLoop ++
        scaleStep (GetEntries (w o)) (GetEntries (w n)) ++
        caloPlots ++ etaPhiPlots) := by
  cases h1 : caloLoop Era.old (GetEntries (w o)) (caloEntries (w o)) with
  | none =>
    have : Compare w o n = none := by unfold Compare; simp only [h1]
    rw [this] at h; exact absurd h (by simp)
  | some oldLoop =>
    cases h2 : caloLoop Era.new (GetEntries (w n)) (caloEntries (w n)) with
    | none =>
      have : Compare w o n = none := by unfold Compare; simp only [h1, h2]
      rw [this] at h; exact absurd h (by simp)
    | some newLoop =>
      refine ⟨oldLoop, newLoop, rfl, rfl, ?_⟩
      have : Compare w o n = some (0,
        GetFiles (w o) ++ GetFiles (w n) ++
        energySumPlots (GetEntries (w o)) (GetEntries (w n)) ++
        oldLoop ++ newLoop ++
        scaleStep (GetEntries (w o)) (GetEntries (w n)) ++
        caloPlots ++ etaPhiPlots) := by unfold Compare; simp only [h1, h2]
      rw [this] at h
      exact (Option.some.inj h).symm

/-- When both event loops complete, so does `Compare`, with return value 0. -/
theorem Compare_eq (w : World) (o n : String) (oldLoop newLoop : List Op)
    (h1 : caloLoop Era.old (GetEntries (w o)) (caloEntries (w o)) = some oldLoop)
    (h2 : caloLoop Era.new (GetEntries (w n)) (caloEntries (w n)) = some newLoop) :
    Compare w o n = some (0,
        GetFiles (w o) ++ GetFiles (w n) ++
        energySumPlots (GetEntries (w o)) (GetEntries (w n)) ++
        oldLoop ++ newLoop ++
        scaleStep (GetEntries (w o)) (GetEntries (w n)) ++
        caloPlots ++ etaPhiPlots) := by
  unfold Compare
  simp only [h1, h2]

/-- A completed run of `Compare` returns 0 (line 362). -/
theorem Compare_code (w : World) (o n : String) (r : Int × List Op)
    (h : Compare w o n = some r) : r.1 = 0 := by
  obtain ⟨_, _, _, _, rfl⟩ := Compare_some w o n r h
  rfl

/-- C9: with an argument count other than 3, `main` prints the usage line and
returns -1 without entering `Compare` (no other call is issued); with three
arguments it returns what `Compare(argv[1], argv[2])` returns, which is 0
whenever `Compare` completes. -/
theorem main_exit_code (w : World) (argv : List String) :
    (argv.length ≠ 3 ∧
      main w argv = some (-1, [Op.cout "ERROR: Please pass two paths for 2018 MC and 2022 MC."])) ∨
    (∃ a0 a1 a2, argv = [a0, a1, a2] ∧ argv.length = 3 ∧ main w argv = Compare w a1 a2 ∧
      ∀ r, Compare w a1 a2 = some r → r.1 = 0) := by
  match argv with
  | [] => exact Or.inl ⟨by decide, rfl⟩
  | [_] => exact Or.inl ⟨by simp, rfl⟩
  | [_, _] => exact Or.inl ⟨by simp, rfl⟩
  | [a0, a1, a2] =>
    exact Or.inr ⟨a0, a1, a2, rfl, rfl, rfl, fun r hr => Compare_code w a1 a2 r hr⟩
  | _ :: _ :: _ :: _ :: _ => exact Or.inl ⟨by simp, rfl⟩

/-! ## The event loop -/

theorem eventBody_some (e : Era) (ev : CaloEvent) (t : List Op) (h : eventBody e ev = some t) :
    ∃ r, towerLoop e ev = some r ∧ t = r.2 ++ eventFills e ev.nHCALTP r.1 := by
  unfold eventBody at h
  cases hr : towerLoop e ev with
  | none => simp [hr] at h
  | some r => exact ⟨r, rfl, by simpa [hr] using h.symm⟩

theorem progressCheck_some (i : Int) (n : Int) (p : List Op) (h : progressCheck i n = some p) :
    n.tdiv 20 ≠ 0 ∧ (p = [] ∨ p = [Op.progress i n]) := by
  unfold progressCheck at h
  split at h
  · simp at h
  · rename_i h0
    refine ⟨h0, ?_⟩
    split at h
    · right; simpa using h.symm
    · left; simpa using h.symm

theorem loopIter_some (e : Era) (n : Int) (st st' : LoopState) (i : Nat)
    (h : loopIter e n st i = some st') :
    ∃ ev rest p t, st.reader = ev :: rest ∧ progressCheck (i : Int) n = some p ∧
      eventBody e ev = some t ∧ st' = ⟨rest, st.trace ++ p ++ t⟩ := by
  unfold loopIter at h
  split at h
  · simp at h
  · rename_i ev rest hreader
    split at h
    · simp at h
    · rename_i p hp
      split at h
      · simp at h
      · rename_i t ht
        exact ⟨ev, rest, p, t, hreader, hp, ht, by simpa using h.symm⟩

theorem isLoopOp_of_isProfFill (e : Era) (op : Op) (h : op.isProfFill e = true) :
    op.isLoopOp e = true := by
  cases op <;> first | exact h | exact absurd h (by simp [Op.isProfFill])

theorem eventBody_ops (e : Era) (ev : CaloEvent) (t : List Op) (h : eventBody e ev = some t) :
    ∀ op ∈ t, op.isLoopOp e = true := by
  obtain ⟨r, hr, rfl⟩ := eventBody_some e ev t h
  intro op hop
  rw [List.mem_append] at hop
  rcases hop with hop | hop
  · exact isLoopOp_of_isProfFill e op (towerLoop_ops e ev r hr op hop)
  · unfold eventFills at hop
    simp only [List.mem_cons, List.mem_singleton, List.not_mem_nil, or_false] at hop
    rcases hop with rfl | rfl | rfl | rfl | rfl | rfl | rfl | rfl <;> simp [Op.isLoopOp]

theorem loopIter_ops (e : Era) (n : Int) (st st' : LoopState) (i : Nat)
    (hst : ∀ op ∈ st.trace, op.isLoopOp e = true) (h : loopIter e n st i = some st') :
    ∀ op ∈ st'.trace, op.isLoopOp e = true := by
  obtain ⟨ev, rest, p, t, _, hp, ht, rfl⟩ := loopIter_some e n st st' i h
  intro op hop
  simp only [List.mem_append] at hop
  rcases hop with (hop | hop) | hop
  · exact hst op hop
  · rcases (progressCheck_some _ _ _ hp).2 with rfl | rfl
    · simp at hop
    · simp only [List.mem_singleton] at hop
      subst hop
      rfl
  · exact eventBody_ops e ev t ht op hop

theorem caloLoop_some (e : Era) (n : Int) (evs : List CaloEvent) (t : List Op)
    (h : caloLoop e n evs = some t) :
    ∃ st, List.foldlM (loopIter e n) ⟨evs, []⟩ (List.range' 1 (n - 1).toNat) = some st ∧
      st.trace = t := by
  unfold caloLoop at h
  cases hf : List.foldlM (loopIter e n) ⟨evs, []⟩ (List.range' 1 (n - 1).toNat) with
  | none => rw [hf] at h; exact absurd h (by simp)
  | some st => rw [hf] at h; exact ⟨st, rfl, Option.some.inj h⟩

/-- The event loop of an era issues only fills of that era and progress
lines. -/
theorem caloLoop_ops (e : Era) (n : Int) (evs : List CaloEvent) (t : List Op)
    (h : caloLoop e n evs = some t) : ∀ op ∈ t, op.isLoopOp e = true := by
  obtain ⟨st, hst, rfl⟩ := caloLoop_some e n evs t h
  exact foldlM_some_inv (loopIter e n) (fun s => ∀ op ∈ s.trace, op.isLoopOp e = true)
    (fun b a b' hb hs => loopIter_ops e n b b' a hb hs) _ _ _ (by simp) hst

/-- With at most one entry the event loop body is never run. -/
theorem caloLoop_le_one (e : Era) (n : Int) (evs : List CaloEvent) (h : n ≤ 1) :
    caloLoop e n evs = some [] := by
  have : (n - 1).toNat = 0 := by omega
  simp [caloLoop, this]

/-- From 20 entries on the progress line is defined. -/
theorem progressCheck_isSome (i : Int) (n : Int) (h : 20 ≤ n) :
    ∃ p, progressCheck i n = some p := by
  have h0 : n.tdiv 20 ≠ 0 := by
    rw [Int.tdiv_eq_ediv (by omega) (by omega)]
    omega
  unfold progressCheck
  split
  · contradiction
  · split
    · exact ⟨_, rfl⟩
    · exact ⟨_, rfl⟩

/-- Below 20 entries the progress line divides by zero. -/
theorem progressCheck_none (i : Int) (n : Int) (h0 : 0 ≤ n) (h : n < 20) :
    progressCheck i n = none := by
  have hz : n.tdiv 20 = 0 := Int.tdiv_eq_zero_of_lt h0 h
  simp only [progressCheck, hz, if_true]

/-- With 2 to 19 entries the first iteration of the event loop already has
no defined result, whatever the events. -/
theorem caloLoop_small (e : Era) (n : Int) (evs : List CaloEvent) (h2 : 2 ≤ n) (h20 : n < 20) :
    caloLoop e n evs = none := by
  obtain ⟨k, hk⟩ : ∃ k, (n - 1).toNat = k + 1 := ⟨(n - 2).toNat, by omega⟩
  have hstep : loopIter e n ⟨evs, []⟩ 1 = none := by
    cases evs with
    | nil => rfl
    | cons ev rest =>
      have hp : progressCheck ((1 : Nat) : Int) n = none := progressCheck_none _ n (by omega) h20
      simp only [loopIter, hp]
  unfold caloLoop
  rw [hk, List.range'_succ, List.foldlM_cons, hstep]
  rfl

theorem eventBody_isSome (e : Era) (ev : CaloEvent) (hwf : ev.wellFormed) :
    ∃ t, eventBody e ev = some t := by
  obtain ⟨r, hr⟩ := towerLoop_isSome e ev hwf
  exact ⟨_, by rw [eventBody, hr]; rfl⟩

theorem foldlM_loopIter_isSome (e : Era) (n : Int) (h : 20 ≤ n) :
    ∀ (is : List Nat) (st : LoopState), is.length ≤ st.reader.length →
      (∀ ev ∈ st.reader, ev.wellFormed) →
      ∃ st', List.foldlM (loopIter e n) st is = some st' := by
  intro is
  induction is with
  | nil => intro st _ _; exact ⟨st, rfl⟩
  | cons i is ih =>
    intro st hlen hwf
    obtain ⟨reader, trace⟩ := st
    cases reader with
    | nil => simp at hlen
    | cons ev rest =>
      obtain ⟨p, hp⟩ := progressCheck_isSome (i : Int) n h
      obtain ⟨t, ht⟩ := eventBody_isSome e ev (hwf ev (List.mem_cons_self ev rest))
      have hstep : loopIter e n ⟨ev :: rest, trace⟩ i = some ⟨rest, trace ++ p ++ t⟩ := by
        simp only [loopIter, hp, ht]
      obtain ⟨st', hst'⟩ := ih ⟨rest, trace ++ p ++ t⟩
        (by simpa using hlen) (fun ev' hev' => hwf ev' (List.mem_cons_of_mem ev hev'))
      exact ⟨st', by rw [List.foldlM_cons, hstep]; exact hst'⟩

/-- With at least 20 entries, enough events in the chain and well-formed
events, the event loop completes. -/
theorem caloLoop_isSome (e : Era) (n : Int) (evs : List CaloEvent) (h : 20 ≤ n)
    (hlen : n - 1 ≤ (evs.length : Int)) (hwf : ∀ ev ∈ evs, ev.wellFormed) :
    ∃ t, caloLoop e n evs = some t := by
  obtain ⟨st, hst⟩ := foldlM_loopIter_isSome e n h (List.range' 1 (n - 1).toNat) ⟨evs, []⟩
    (by simp only [List.length_range']; omega) hwf
  exact ⟨st.trace, by rw [caloLoop, hst]; rfl⟩

/-- The event loop completes on every dataset with at most one entry, and
on every dataset with at least 20 entries whose calo-tower chain holds
enough well-formed events. -/
theorem caloLoop_completes (e : Era) (n : Int) (evs : List CaloEvent)
    (h : n ≤ 1 ∨ (20 ≤ n ∧ n - 1 ≤ (evs.length : Int) ∧ ∀ ev ∈ evs, ev.wellFormed)) :
    ∃ t, caloLoop e n evs = some t := by
  rcases h with h | ⟨h20, hlen, hwf⟩
  · exact ⟨[], caloLoop_le_one e n evs h⟩
  · exact caloLoop_isSome e n evs h20 hlen hwf

/-- The function `Compare` completes, with return value 0, whenever both
event loops do. -/
theorem Compare_completes (w : World) (o n : String)
    (ho : GetEntries (w o) ≤ 1 ∨ (20 ≤ GetEntries (w o) ∧
      GetEntries (w o) - 1 ≤ ((caloEntries (w o)).length : Int) ∧
      ∀ ev ∈ caloEntries (w o), ev.wellFormed))
    (hn : GetEntries (w n) ≤ 1 ∨ (20 ≤ GetEntries (w n) ∧
      GetEntries (w n) - 1 ≤ ((caloEntries (w n)).length : Int) ∧
      ∀ ev ∈ caloEntries (w n), ev.wellFormed)) :
    ∃ t, Compare w o n = some (0, t) := by
  obtain ⟨oldLoop, hold⟩ := caloLoop_completes Era.old _ _ ho
  obtain ⟨newLoop, hnew⟩ := caloLoop_completes Era.new _ _ hn
  exact ⟨_, Compare_eq w o n oldLoop newLoop hold hnew⟩

/-! ## Fills made by the event loop -/

theorem fillsOf_append (e : Era) (h : CaloHist) (a b : List Op) :
    fillsOf e h (a ++ b) = fillsOf e h a ++ fillsOf e h b := by
  simp [fillsOf, List.filterMap_append]

theorem filterMap_eq_nil_of_none {α β : Type} (f : α → Option β) (l : List α)
    (hl : ∀ a ∈ l, f a = none) : l.filterMap f = [] := by
  induction l with
  | nil => rfl
  | cons a l ih =>
    rw [List.filterMap_cons, hl a (List.mem_cons_self a l)]
    exact ih fun b hb => hl b (List.mem_cons_of_mem a hb)

theorem fillValue_loopOp_other (e e1 : Era) (h : CaloHist) (op : Op) (hne : e1 ≠ e)
    (hop : op.isLoopOp e1 = true) : fillValue e h op = none := by
  cases op with
  | fill e2 h2 x =>
    have h21 : e2 = e1 := by simpa [Op.isLoopOp] using hop
    have hc : ¬ (e2 = e ∧ h2 = h) := fun hc => hne (h21 ▸ hc.1)
    simp only [fillValue, if_neg hc]
  | _ => rfl

theorem fillsOf_loopOps_other (e e1 : Era) (h : CaloHist) (t : List Op) (hne : e1 ≠ e)
    (ht : ∀ op ∈ t, op.isLoopOp e1 = true) : fillsOf e h t = [] :=
  filterMap_eq_nil_of_none _ t fun op hop => fillValue_loopOp_other e e1 h op hne (ht op hop)

theorem fillValue_profFill (e e1 : Era) (h : CaloHist) (op : Op)
    (hop : op.isProfFill e1 = true) : fillValue e h op = none := by
  cases op with
  | fill e2 h2 x => exact absurd hop (by simp [Op.isProfFill])
  | _ => rfl

theorem fillsOf_profFills (e e1 : Era) (h : CaloHist) (t : List Op)
    (ht : ∀ op ∈ t, op.isProfFill e1 = true) : fillsOf e h t = [] :=
  filterMap_eq_nil_of_none _ t fun op hop => fillValue_profFill e e1 h op (ht op hop)

theorem fillsOf_eventFills (e : Era) (h : CaloHist) (n : Int) (s : Sums) :
    ∃ x, fillsOf e h (eventFills e n s) = [x] := by
  cases h <;> cases e <;> exact ⟨_, rfl⟩

theorem fillsOf_eventBody (e : Era) (h : CaloHist) (ev : CaloEvent) (t : List Op)
    (ht : eventBody e ev = some t) : ∃ x, fillsOf e h t = [x] := by
  obtain ⟨r, hr, rfl⟩ := eventBody_some e ev t ht
  obtain ⟨x, hx⟩ := fillsOf_eventFills e h ev.nHCALTP r.1
  exact ⟨x, by rw [fillsOf_append, fillsOf_profFills e e h r.2 (towerLoop_ops e ev r hr), hx]; rfl⟩

theorem fillsOf_progressCheck (e : Era) (h : CaloHist) (i n : Int) (p : List Op)
    (hp : progressCheck i n = some p) : fillsOf e h p = [] := by
  rcases (progressCheck_some i n p hp).2 with rfl | rfl <;> rfl

theorem foldlM_loopIter_fills (e : Era) (h : CaloHist) (n : Int) :
    ∀ (is : List Nat) (st st' : LoopState), List.foldlM (loopIter e n) st is = some st' →
      (fillsOf e h st'.trace).length = (fillsOf e h st.trace).length + is.length := by
  intro is
  induction is with
  | nil =>
    intro st st' hrun
    simp at hrun
    subst hrun
    simp
  | cons i is ih =>
    intro st st' hrun
    rw [List.foldlM_cons] at hrun
    cases hs : loopIter e n st i with
    | none => rw [hs] at hrun; exact absurd hrun (by simp)
    | some st1 =>
      rw [hs] at hrun
      have h1 := ih st1 st' hrun
      obtain ⟨ev, rest, p, t, _, hp, ht, rfl⟩ := loopIter_some e n st st1 i hs
      obtain ⟨x, hx⟩ := fillsOf_eventBody e h ev t ht
      rw [h1]
      simp only [fillsOf_append, fillsOf_progressCheck e h _ _ p hp, hx, List.length_append,
        List.length_cons, List.length_nil]
      omega

/-- Every completed event loop makes exactly `entries - 1` fills in each
histogram of its era. -/
theorem caloLoop_fills_length (e : Era) (h : CaloHist) (n : Int) (evs : List CaloEvent)
    (t : List Op) (ht : caloLoop e n evs = some t) :
    (fillsOf e h t).length = (n - 1).toNat := by
  obtain ⟨st, hst, rfl⟩ := caloLoop_some e n evs t ht
  have := foldlM_loopIter_fills e h n _ _ _ hst
  simpa [fillsOf] using this

theorem foldlM_loopIter_append (e : Era) (n : Int) (extra : List CaloEvent) :
    ∀ (is : List Nat) (reader : List CaloEvent) (trace : List Op),
      is.length ≤ reader.length →
      (List.foldlM (loopIter e n) ⟨reader ++ extra, trace⟩ is).map (fun st => st.trace) =
      (List.foldlM (loopIter e n) ⟨reader, trace⟩ is).map (fun st => st.trace) := by
  intro is
  induction is with
  | nil => intro reader trace _; rfl
  | cons i is ih =>
    intro reader trace hlen
    cases reader with
    | nil => simp at hlen
    | cons ev rest =>
      rw [List.foldlM_cons, List.foldlM_cons]
      cases hp : progressCheck (i : Int) n with
      | none =>
        have h1 : loopIter e n ⟨ev :: rest ++ extra, trace⟩ i = none := by
          simp only [loopIter, List.cons_append, hp]
        have h2 : loopIter e n ⟨ev :: rest, trace⟩ i = none := by
          simp only [loopIter, hp]
        rw [h1, h2]
      | some p =>
        cases ht : eventBody e ev with
        | none =>
          have h1 : loopIter e n ⟨ev :: rest ++ extra, trace⟩ i = none := by
            simp only [loopIter, List.cons_append, hp, ht]
          have h2 : loopIter e n ⟨ev :: rest, trace⟩ i = none := by
            simp only [loopIter, hp, ht]
          rw [h1, h2]
        | some t =>
          have h1 : loopIter e n ⟨ev :: rest ++ extra, trace⟩ i =
              some ⟨rest ++ extra, trace ++ p ++ t⟩ := by
            simp only [loopIter, List.cons_append, hp, ht]
          have h2 : loopIter e n ⟨ev :: rest, trace⟩ i = some ⟨rest, trace ++ p ++ t⟩ := by
            simp only [loopIter, hp, ht]
          rw [h1, h2]
          exact ih rest (trace ++ p ++ t) (by simpa using hlen)

/-- Events after the first `entries - 1` have no effect on the event loop. -/
theorem caloLoop_append (e : Era) (n : Int) (evs extra : List CaloEvent)
    (hlen : n - 1 ≤ (evs.length : Int)) :
    caloLoop e n (evs ++ extra) = caloLoop e n evs := by
  unfold caloLoop
  exact foldlM_loopIter_append e n extra _ evs [] (by simp only [List.length_range']; omega)

/-! ## The document calls of a run -/

theorem docOps_append (a b : List Op) : docOps (a ++ b) = docOps a ++ docOps b := by
  simp [docOps]

theorem docOps_loopOps (e : Era) (t : List Op) (ht : ∀ op ∈ t, op.isLoopOp e = true) :
    docOps t = [] := by
  unfold docOps
  rw [List.filter_eq_nil_iff]
  intro op hop
  have := ht op hop
  cases op <;> simp_all [Op.isLoopOp, Op.isDocOp]

theorem docOps_GetFiles (files : List RootFile) : docOps (GetFiles files) = [] := by
  unfold docOps GetFiles
  rw [List.filter_eq_nil_iff]
  intro op hop
  rw [List.mem_map] at hop
  obtain ⟨f, _, rfl⟩ := hop
  simp [Op.isDocOp]

theorem docOps_flatMap (f : Nat → List Op) (l : List Nat) :
    docOps (l.flatMap f) = l.flatMap fun i => docOps (f i) := by
  induction l with
  | nil => rfl
  | cons a l ih => simp only [List.flatMap_cons, docOps_append, ih]

theorem docOps_energySumIter (o n : Int) (i : Nat) :
    docOps (energySumIter o n i) =
      [Op.setXTitle .new .EnergySumHist (energySumName i),
       Op.canvasPrint "L1EnergySumsUnpacked.pdf"] := rfl

theorem docOps_energySumPlots (o n : Int) :
    docOps (energySumPlots o n) =
      [Op.canvasPrint "L1EnergySumsUnpacked.pdf["] ++
      ((List.range 19).flatMap fun i =>
        [Op.setXTitle .new .EnergySumHist (energySumName i),
         Op.canvasPrint "L1EnergySumsUnpacked.pdf"]) ++
      [Op.canvasPrint "L1EnergySumsUnpacked.pdf]"] := by
  unfold energySumPlots
  rw [docOps_append, docOps_append, docOps_flatMap]
  simp only [docOps_energySumIter]
  rfl

theorem docOps_scaleStep (o n : Int) : docOps (scaleStep o n) = [] := rfl

theorem printsOf_docOps (ops : List Op) : printsOf (docOps ops) = printsOf ops := by
  induction ops with
  | nil => rfl
  | cons op ops ih =>
    unfold printsOf docOps at ih ⊢
    cases op <;> simp [List.filter_cons, List.filterMap_cons, Op.isDocOp, printedFile, ih]

/-- C8: a completed run of `Compare` issues its document calls in exactly the
documented order: energy-sum document (open, 19 titled pages in bit-index
order, close), calo-tower document (open, four wide then four zoomed pages,
close), eta-phi document (open, 2022 profile page, 2018 profile page,
close). Its `Print` calls are therefore: open, 19 pages, close; open, 8
pages, close; open, 2 pages, close, each document closed before the next is
opened. -/
theorem report_order (w : World) (oldInput newInput : String) (r : Int × List Op)
    (hrun : Compare w oldInput newInput = some r) :
    docOps r.2 = specDocumentOrder ∧
    printsOf r.2 =
      ["L1EnergySumsUnpacked.pdf["] ++ List.replicate 19 "L1EnergySumsUnpacked.pdf" ++
      ["L1EnergySumsUnpacked.pdf]"] ++
      ["L1CaloTPUnpacked.pdf["] ++ List.replicate 8 "L1CaloTPUnpacked.pdf" ++
      ["L1CaloTPUnpacked.pdf]"] ++
      ["L1CaloTPEtaPhiUnpacked.pdf["] ++ List.replicate 2 "L1CaloTPEtaPhiUnpacked.pdf" ++
      ["L1CaloTPEtaPhiUnpacked.pdf]"] := by
  have hdoc : docOps r.2 = specDocumentOrder := by
    obtain ⟨oldLoop, newLoop, hold, hnew, rfl⟩ := Compare_some w oldInput newInput r hrun
    simp only [docOps_append, docOps_GetFiles, docOps_energySumPlots, docOps_scaleStep,
      docOps_loopOps Era.old oldLoop (caloLoop_ops _ _ _ _ hold),
      docOps_loopOps Era.new newLoop (caloLoop_ops _ _ _ _ hnew), List.nil_append,
      List.append_nil]
    decide
  refine ⟨hdoc, ?_⟩
  rw [← printsOf_docOps, hdoc]
  decide

/-! ## The scale calls of a run -/

theorem scalesOf_append (e : Era) (a b : List Op) :
    scalesOf e (a ++ b) = scalesOf e a ++ scalesOf e b := by
  simp [scalesOf, List.filterMap_append]

theorem scaleDenominator_loopOp (e e1 : Era) (op : Op) (hop : op.isLoopOp e1 = true) :
    scaleDenominator e op = none := by
  cases op with
  | scale e2 h2 m => exact absurd hop (by simp [Op.isLoopOp])
  | _ => rfl

theorem scalesOf_loopOps (e e1 : Era) (t : List Op) (ht : ∀ op ∈ t, op.isLoopOp e1 = true) :
    scalesOf e t = [] :=
  filterMap_eq_nil_of_none _ t fun op hop => scaleDenominator_loopOp e e1 op (ht op hop)

theorem scalesOf_GetFiles (e : Era) (files : List RootFile) : scalesOf e (GetFiles files) = [] := by
  refine filterMap_eq_nil_of_none _ _ fun op hop => ?_
  unfold GetFiles at hop
  rw [List.mem_map] at hop
  obtain ⟨f, _, rfl⟩ := hop
  rfl

theorem scalesOf_flatMap (e : Era) (f : Nat → List Op) (l : List Nat) :
    scalesOf e (l.flatMap f) = l.flatMap fun i => scalesOf e (f i) := by
  induction l with
  | nil => rfl
  | cons a l ih => simp only [List.flatMap_cons, scalesOf_append, ih]

theorem scalesOf_energySumIter (w : World) (o n : String) (e : Era) (i : Nat) :
    scalesOf e (energySumIter (GetEntries (w o)) (GetEntries (w n)) i) = [entriesOf w o n e] := by
  cases e <;> rfl

theorem scalesOf_energySumPlots (w : World) (o n : String) (e : Era) :
    scalesOf e (energySumPlots (GetEntries (w o)) (GetEntries (w n))) =
      List.replicate 19 (entriesOf w o n e) := by
  unfold energySumPlots
  rw [scalesOf_append, scalesOf_append, scalesOf_flatMap]
  simp only [scalesOf_energySumIter]
  rfl

theorem scalesOf_scaleStep (w : World) (o n : String) (e : Era) :
    scalesOf e (scaleStep (GetEntries (w o)) (GetEntries (w n))) =
      List.replicate 8 (entriesOf w o n e) := by
  cases e <;> rfl

theorem scalesOf_plots (e : Era) : scalesOf e (caloPlots ++ etaPhiPlots) = [] := by
  cases e <;> rfl

/-- A completed run scales the histograms of an era 27 times (19 times the
energy-sum histogram, once each calo-tower histogram), always by that era's
entry count. -/
theorem scalesOf_Compare (w : World) (o n : String) (r : Int × List Op) (e : Era)
    (hrun : Compare w o n = some r) :
    scalesOf e r.2 = List.replicate 27 (entriesOf w o n e) := by
  obtain ⟨oldLoop, newLoop, hold, hnew, rfl⟩ := Compare_some w o n r hrun
  rw [List.append_assoc _ caloPlots etaPhiPlots]
  simp only [scalesOf_append, scalesOf_GetFiles, scalesOf_energySumPlots, scalesOf_scaleStep,
    scalesOf_plots,
    scalesOf_loopOps e Era.old oldLoop (caloLoop_ops _ _ _ _ hold),
    scalesOf_loopOps e Era.new newLoop (caloLoop_ops _ _ _ _ hnew), List.nil_append,
    List.append_nil]
  rfl

theorem fillsOf_static (e : Era) (h : CaloHist) (w : World) (o n : String) :
    fillsOf e h (energySumPlots (GetEntries (w o)) (GetEntries (w n))) = [] ∧
    fillsOf e h (scaleStep (GetEntries (w o)) (GetEntries (w n))) = [] ∧
    fillsOf e h caloPlots = [] ∧ fillsOf e h etaPhiPlots = [] := by
  refine ⟨rfl, rfl, rfl, rfl⟩

theorem fillsOf_GetFiles (e : Era) (h : CaloHist) (files : List RootFile) :
    fillsOf e h (GetFiles files) = [] := by
  refine filterMap_eq_nil_of_none _ _ fun op hop => ?_
  unfold GetFiles at hop
  rw [List.mem_map] at hop
  obtain ⟨f, _, rfl⟩ := hop
  rfl

/-- The `Fill` calls `Compare` makes on a histogram of an era are those of
that era's event loop. -/
theorem fillsOf_Compare (w : World) (o n : String) (r : Int × List Op) (e : Era) (h : CaloHist)
    (hrun : Compare w o n = some r) :
    ∃ t, caloLoop e (entriesOf w o n e)
        (match e with
          | .old => caloEntries (w o)
          | .new => caloEntries (w n)) = some t ∧
      fillsOf e h r.2 = fillsOf e h t := by
  obtain ⟨oldLoop, newLoop, hold, hnew, rfl⟩ := Compare_some w o n r hrun
  obtain ⟨h1, h2, h3, h4⟩ := fillsOf_static e h w o n
  cases e with
  | old =>
    refine ⟨oldLoop, hold, ?_⟩
    simp only [fillsOf_append, fillsOf_GetFiles, h1, h2, h3, h4,
      fillsOf_loopOps_other Era.old Era.new h newLoop (by decide) (caloLoop_ops _ _ _ _ hnew),
      List.nil_append, List.append_nil]
  | new =>
    refine ⟨newLoop, hnew, ?_⟩
    simp only [fillsOf_append, fillsOf_GetFiles, h1, h2, h3, h4,
      fillsOf_loopOps_other Era.new Era.old h oldLoop (by decide) (caloLoop_ops _ _ _ _ hold),
      List.nil_append, List.append_nil]

/-- C4 (as amended): `Compare` has no empty-dataset check. For a dataset with
entry count 0, every completed run returns the success code 0, makes no fill
for that dataset and makes all its 27 `Scale(1.0/entries)` calls with
`entries = 0`; and when both datasets have entry count 0 the run does
complete. -/
theorem empty_dataset_not_rejected (w : World) (oldInput newInput : String) (e : Era)
    (hzero : entriesOf w oldInput newInput e = 0) :
    (∀ r, Compare w oldInput newInput = some r →
      r.1 = 0 ∧ scalesOf e r.2 = List.replicate 27 0 ∧ ∀ h, fillsOf e h r.2 = []) ∧
    (entriesOf w oldInput newInput Era.old = 0 → entriesOf w oldInput newInput Era.new = 0 →
      ∃ t, Compare w oldInput newInput = some (0, t)) := by
  constructor
  · intro r hrun
    refine ⟨Compare_code w oldInput newInput r hrun, ?_, ?_⟩
    · rw [scalesOf_Compare w oldInput newInput r e hrun, hzero]
    · intro h
      obtain ⟨t, ht, hfill⟩ := fillsOf_Compare w oldInput newInput r e h hrun
      rw [hzero, caloLoop_le_one e 0 _ (by decide)] at ht
      rw [hfill, ← Option.some.inj ht]
      rfl
  · intro ho hn
    simp only [entriesOf] at ho hn
    exact ⟨_, Compare_eq w oldInput newInput [] []
      (by rw [ho]; exact caloLoop_le_one Era.old 0 _ (by decide))
      (by rw [hn]; exact caloLoop_le_one Era.new 0 _ (by decide))⟩

/-- Two directories without data files. -/
theorem empty_dataset_not_rejected_witness :
    entriesOf emptyWorld "old" "new" Era.old = 0 ∧
    ((∀ r, Compare emptyWorld "old" "new" = some r →
      r.1 = 0 ∧ scalesOf Era.old r.2 = List.replicate 27 0 ∧ ∀ h, fillsOf Era.old h r.2 = []) ∧
    (entriesOf emptyWorld "old" "new" Era.old = 0 → entriesOf emptyWorld "old" "new" Era.new = 0 →
      ∃ t, Compare emptyWorld "old" "new" = some (0, t))) :=
  ⟨rfl, empty_dataset_not_rejected emptyWorld "old" "new" Era.old rfl⟩

/-! ## Bin contents and normalisation -/

theorem runOps_append (e : Era) (h : CaloHist) (a b : List Op) :
    ∀ bins, runOps e h (a ++ b) bins = (runOps e h a bins).bind (runOps e h b) := by
  induction a with
  | nil => intro bins; rfl
  | cons op a ih =>
    intro bins
    rw [List.cons_append, runOps, runOps]
    cases applyOp e h bins op with
    | none => rfl
    | some b1 => exact ih b1

theorem applyOp_noScale (e : Era) (h : CaloHist) (bins : List ℚ) (op : Op)
    (hs : op.isScaleOf e h = false) : ∃ b, applyOp e h bins op = some b := by
  cases op with
  | fill e1 h1 x =>
    by_cases hc : e1 = e ∧ h1 = h
    · exact ⟨addAt 1 (findBin h x) bins, by simp only [applyOp, if_pos hc]⟩
    · exact ⟨bins, by simp only [applyOp, if_neg hc]⟩
  | scale e1 h1 m =>
    have hc : ¬ (e1 = e ∧ h1 = Hist.calo h) := by simpa [Op.isScaleOf] using hs
    exact ⟨bins, by simp only [applyOp, if_neg hc]⟩
  | _ => exact ⟨bins, rfl⟩

theorem applyOp_untouched (e : Era) (h : CaloHist) (bins : List ℚ) (op : Op)
    (hf : op.isFillOf e h = false) (hs : op.isScaleOf e h = false) :
    applyOp e h bins op = some bins := by
  cases op with
  | fill e1 h1 x =>
    have hc : ¬ (e1 = e ∧ h1 = h) := by simpa [Op.isFillOf] using hf
    simp only [applyOp, if_neg hc]
  | scale e1 h1 m =>
    have hc : ¬ (e1 = e ∧ h1 = Hist.calo h) := by simpa [Op.isScaleOf] using hs
    simp only [applyOp, if_neg hc]
  | _ => rfl

theorem runOps_noScale (e : Era) (h : CaloHist) (a : List Op)
    (ha : ∀ op ∈ a, op.isScaleOf e h = false) :
    ∀ bins, ∃ b, runOps e h a bins = some b := by
  induction a with
  | nil => intro bins; exact ⟨bins, rfl⟩
  | cons op a ih =>
    intro bins
    obtain ⟨b1, hb1⟩ := applyOp_noScale e h bins op (ha op (List.mem_cons_self op a))
    obtain ⟨b2, hb2⟩ := ih (fun o ho => ha o (List.mem_cons_of_mem op ho)) b1
    exact ⟨b2, by rw [runOps, hb1]; exact hb2⟩

theorem runOps_untouched (e : Era) (h : CaloHist) (a : List Op)
    (ha : ∀ op ∈ a, op.isFillOf e h = false ∧ op.isScaleOf e h = false) :
    ∀ bins, runOps e h a bins = some bins := by
  induction a with
  | nil => intro bins; rfl
  | cons op a ih =>
    intro bins
    have h1 := ha op (List.mem_cons_self op a)
    rw [runOps, applyOp_untouched e h bins op h1.1 h1.2]
    exact ih (fun o ho => ha o (List.mem_cons_of_mem op ho)) bins

theorem scaleStep_split (w : World) (o n : String) (e : Era) (h : CaloHist) :
    scaleStep (GetEntries (w o)) (GetEntries (w n)) =
      List.take (scalePos e h) (scaleStep (GetEntries (w o)) (GetEntries (w n))) ++
      Op.scale e (Hist.calo h) (entriesOf w o n e) ::
      List.drop (scalePos e h + 1) (scaleStep (GetEntries (w o)) (GetEntries (w n))) := by
  cases e <;> cases h <;> rfl

theorem scaleStep_before (o n : Int) (e : Era) (h : CaloHist) :
    ∀ op ∈ List.take (scalePos e h) (scaleStep o n), op.isScaleOf e h = false := by
  have : (List.take (scalePos e h) (scaleStep o n)).all (fun op => !op.isScaleOf e h) = true := by
    cases e <;> cases h <;> rfl
  intro op hop
  simpa using (List.all_eq_true.1 this) op hop

theorem scaleStep_after (o n : Int) (e : Era) (h : CaloHist) :
    ∀ op ∈ List.drop (scalePos e h + 1) (scaleStep o n) ++ caloPlots ++ etaPhiPlots,
      op.isFillOf e h = false ∧ op.isScaleOf e h = false := by
  have : (List.drop (scalePos e h + 1) (scaleStep o n) ++ caloPlots ++ etaPhiPlots).all
      (fun op => !op.isFillOf e h && !op.isScaleOf e h) = true := by
    cases e <;> cases h <;> rfl
  intro op hop
  simpa using (List.all_eq_true.1 this) op hop

theorem energySumPlots_noScale (o n : Int) (e : Era) (h : CaloHist) :
    ∀ op ∈ energySumPlots o n, op.isScaleOf e h = false := by
  have hiter : ∀ i, (energySumIter o n i).all (fun op => !op.isScaleOf e h) = true := by
    intro i
    cases e <;> cases h <;> rfl
  intro op hop
  unfold energySumPlots at hop
  simp only [List.mem_append, List.mem_singleton, List.mem_flatMap] at hop
  rcases hop with (rfl | ⟨i, _, hop⟩) | rfl
  · rfl
  · simpa using (List.all_eq_true.1 (hiter i)) op hop
  · rfl

theorem GetFiles_noScale (files : List RootFile) (e : Era) (h : CaloHist) :
    ∀ op ∈ GetFiles files, op.isScaleOf e h = false := by
  intro op hop
  unfold GetFiles at hop
  rw [List.mem_map] at hop
  obtain ⟨f, _, rfl⟩ := hop
  rfl

theorem loopOps_noScale (e e1 : Era) (h : CaloHist) (op : Op) (hop : op.isLoopOp e1 = true) :
    op.isScaleOf e h = false := by
  cases op <;> first | rfl | exact absurd hop (by simp [Op.isLoopOp])

/-- Scaling every bin by `1/c` divides the sum of the bins by `c`. -/
theorem sum_map_scale (bins : List ℚ) (c : ℚ) :
    (bins.map fun x => x * (1 / c)).sum = bins.sum / c := by
  induction bins with
  | nil => simp
  | cons b bins ih =>
    rw [List.map_cons, List.sum_cons, List.sum_cons, ih]
    ring

/-- C7: in a completed run of `Compare` over a dataset with `N > 0` entries,
each calo-tower histogram is scaled exactly once, by `Scale(1.0/N)`, with
every fill of it before and no fill or scale of it after; the bin contents
after the run are the pre-scale contents times `1/N`, so their sum is the
pre-scale sum divided by `N`. -/
theorem scale_once_normalises (w : World) (oldInput newInput : String) (r : Int × List Op)
    (e : Era) (h : CaloHist) (hrun : Compare w oldInput newInput = some r)
    (hN : 0 < entriesOf w oldInput newInput e) :
    ∃ pre post bins,
      r.2 = pre ++ Op.scale e (Hist.calo h) (entriesOf w oldInput newInput e) :: post ∧
      (∀ op ∈ pre, op.isScaleOf e h = false) ∧
      (∀ op ∈ post, op.isFillOf e h = false ∧ op.isScaleOf e h = false) ∧
      binContents e h pre = some bins ∧
      binContents e h r.2 =
        some (bins.map fun c => c * (1 / (entriesOf w oldInput newInput e : ℚ))) ∧
      (bins.map fun c => c * (1 / (entriesOf w oldInput newInput e : ℚ))).sum =
        bins.sum / (entriesOf w oldInput newInput e : ℚ) := by
  obtain ⟨oldLoop, newLoop, hold, hnew, rfl⟩ := Compare_some w oldInput newInput r hrun
  have hpre : ∀ op ∈ GetFiles (w oldInput) ++ GetFiles (w newInput) ++
      energySumPlots (GetEntries (w oldInput)) (GetEntries (w newInput)) ++ oldLoop ++ newLoop ++
      List.take (scalePos e h) (scaleStep (GetEntries (w oldInput)) (GetEntries (w newInput))),
      op.isScaleOf e h = false := by
    intro op hop
    simp only [List.mem_append] at hop
    rcases hop with ((((hop | hop) | hop) | hop) | hop) | hop
    · exact GetFiles_noScale _ e h op hop
    · exact GetFiles_noScale _ e h op hop
    · exact energySumPlots_noScale _ _ e h op hop
    · exact loopOps_noScale e Era.old h op (caloLoop_ops _ _ _ _ hold op hop)
    · exact loopOps_noScale e Era.new h op (caloLoop_ops _ _ _ _ hnew op hop)
    · exact scaleStep_before _ _ e h op hop
  have hpost := scaleStep_after (GetEntries (w oldInput)) (GetEntries (w newInput)) e h
  obtain ⟨bins, hbins⟩ := runOps_noScale e h _ hpre (emptyBins h)
  have hsplit : GetFiles (w oldInput) ++ GetFiles (w newInput) ++
      energySumPlots (GetEntries (w oldInput)) (GetEntries (w newInput)) ++ oldLoop ++ newLoop ++
      scaleStep (GetEntries (w oldInput)) (GetEntries (w newInput)) ++ caloPlots ++ etaPhiPlots =
      (GetFiles (w oldInput) ++ GetFiles (w newInput) ++
      energySumPlots (GetEntries (w oldInput)) (GetEntries (w newInput)) ++ oldLoop ++ newLoop ++
      List.take (scalePos e h) (scaleStep (GetEntries (w oldInput)) (GetEntries (w newInput)))) ++
      Op.scale e (Hist.calo h) (entriesOf w oldInput newInput e) ::
      (List.drop (scalePos e h + 1) (scaleStep (GetEntries (w oldInput)) (GetEntries (w newInput)))
        ++ caloPlots ++ etaPhiPlots) := by
    conv_lhs => rw [scaleStep_split w oldInput newInput e h]
    simp only [List.append_assoc, List.cons_append]
  have hne : ¬ entriesOf w oldInput newInput e = 0 := by omega
  refine ⟨_, _, bins, hsplit, hpre, hpost, hbins, ?_, sum_map_scale bins _⟩
  show binContents e h _ = _
  rw [hsplit, binContents, runOps_append, hbins]
  show runOps e h (_ :: _) bins = _
  rw [runOps]
  simp only [applyOp, and_self, if_true, if_neg hne]
  exact runOps_untouched e h _ hpost _

/-! ## The code at the failing inputs -/

/-- C3 (the code at the failing inputs): with the three events of the
documented scenario and `entries = 3` the loop of either era has no defined
result (the progress line divides by `3 / 20 = 0`); with one event the loop
makes no fill; with twenty events ending in the three of the scenario each
histogram receives 19 fills, and the Forward sum 7 of the last event is never
filled. -/
theorem last_event_dropped :
    caloLoop Era.old 3 specEvents = none ∧
    caloLoop Era.new 3 specEvents = none ∧
    caloLoop Era.old 1 [hfEvent] = some [] ∧
    (caloLoop Era.old 20 paddedEvents).map (fun t =>
      (fillsOf Era.old .CaloNTowersHist t, fillsOf Era.old .CaloIHBHist t,
       fillsOf Era.old .CaloIHEHist t, fillsOf Era.old .CaloIHFHist t)) =
      some (List.replicate 17 0 ++ [1, 1], List.replicate 17 0 ++ [5, 0],
            List.replicate 17 0 ++ [0, 3], List.replicate 19 0) ∧
    (caloLoop Era.new 20 paddedEvents).map (fun t =>
      (fillsOf Era.new .CaloNTowersHist t, fillsOf Era.new .CaloIHBHist t,
       fillsOf Era.new .CaloIHEHist t, fillsOf Era.new .CaloIHFHist t)) =
      some (List.replicate 17 0 ++ [1, 1], List.replicate 17 0 ++ [5, 0],
            List.replicate 17 0 ++ [0, 3], List.replicate 19 0) := by
  decide!

/-- C10 (the code at the failing input): for `entries = 3` the divisor
`entries / 20` is 0, so the progress line of the first iteration (`i = 1`)
has no defined result, in either loop and hence in `Compare`. -/
theorem progress_divides_by_zero :
    (3 : Int).tdiv 20 = 0 ∧
    List.range' 1 ((3 : Int) - 1).toNat = [1, 2] ∧
    progressCheck 1 3 = none ∧
    (specEvents.map fun ev => (eventBody Era.old ev).isSome) = [true, true, true] ∧
    loopIter Era.old 3 ⟨specEvents, []⟩ 1 = none ∧
    loopIter Era.new 3 ⟨specEvents, []⟩ 1 = none ∧
    caloLoop Era.old 3 specEvents = none ∧
    caloLoop Era.new 3 specEvents = none ∧
    Compare smallWorld "old" "new" = none := by
  decide!

/-- C5 (the code at the failing input): two orderings of the same twenty
events give different scaled bin contents of the 2018 Forward-sum histogram,
because the event delivered last is never aggregated. -/
theorem fill_order_changes_bins :
    List.Perm hfFirst hfLast ∧
    (caloLoop Era.old 20 hfFirst).bind (fun t =>
        binContents Era.old .CaloIHFHist (t ++ scaleStep 20 20)) =
      some (0 :: 9 / 10 :: 1 / 20 :: List.replicate 79 0) ∧
    (caloLoop Era.old 20 hfLast).bind (fun t =>
        binContents Era.old .CaloIHFHist (t ++ scaleStep 20 20)) =
      some (0 :: 19 / 20 :: List.replicate 80 0) ∧
    (caloLoop Era.old 20 hfFirst).bind (fun t =>
        binContents Era.old .CaloIHFHist (t ++ scaleStep 20 20)) ≠
    (caloLoop Era.old 20 hfLast).bind (fun t =>
        binContents Era.old .CaloIHFHist (t ++ scaleStep 20 20)) := by
  refine ⟨?_, ?_, ?_, ?_⟩
  · have hp : List.Perm ([hfEvent] ++ List.replicate 19 emptyEvent)
        (List.replicate 19 emptyEvent ++ [hfEvent]) := List.perm_append_comm
    exact hp
  · decide!
  · decide!
  · decide!

/-- C4 (counterexample): on two directories without data files `Compare`
returns 0 and issues 27 `Scale(1.0/0)` calls per dataset. -/
theorem empty_dataset_scaled :
    (Compare emptyWorld "old" "new").map (fun r =>
      (r.1, scalesOf Era.old r.2, scalesOf Era.new r.2)) =
    some (0, List.replicate 27 0, List.replicate 27 0) := by
  decide!

/-! ## A completed run -/

/-- On the twenty-event sample `Compare` completes. -/
theorem paddedRun_eq : Compare paddedWorld "old" "new" = some paddedRun := by
  decide!

/-- The report order on the twenty-event sample, where `Compare` completes. -/
theorem report_order_witness :
    Compare paddedWorld "old" "new" = some paddedRun ∧
    docOps paddedRun.2 = specDocumentOrder ∧ (printsOf paddedRun.2).length = 35 := by
  have h := report_order paddedWorld "old" "new" paddedRun paddedRun_eq
  refine ⟨paddedRun_eq, h.1, ?_⟩
  rw [h.2]
  decide

/-- The normalisation of the 2018 Barrel-sum histogram on the twenty-event
sample. -/
theorem scale_once_normalises_witness :
    0 < entriesOf paddedWorld "old" "new" Era.old ∧
    ∃ pre post bins,
      paddedRun.2 = pre ++ Op.scale Era.old (Hist.calo .CaloIHBHist) 20 :: post ∧
      (∀ op ∈ pre, op.isScaleOf Era.old .CaloIHBHist = false) ∧
      (∀ op ∈ post, op.isFillOf Era.old .CaloIHBHist = false ∧
        op.isScaleOf Era.old .CaloIHBHist = false) ∧
      binContents Era.old .CaloIHBHist pre = some bins ∧
      binContents Era.old .CaloIHBHist paddedRun.2 = some (bins.map fun c => c * (1 / 20)) ∧
      (bins.map fun c => c * (1 / (20 : ℚ))).sum = bins.sum / 20 := by
  refine ⟨by decide, ?_⟩
  have h := scale_once_normalises paddedWorld "old" "new" paddedRun Era.old .CaloIHBHist
    paddedRun_eq (by decide)
  have h20 : entriesOf paddedWorld "old" "new" Era.old = 20 := by decide
  rw [h20] at h
  simpa using h

end L1Studies
